/-
Verification of the expense-tracker ledger service (src/main.py) against its
specification.

The service keeps one SQLite table `expenses(id, date, amount, category,
subcategory, note)` with `id INTEGER PRIMARY KEY AUTOINCREMENT`, and exposes
six tools: add_expense, list_expenses, delete_expense, delete_expenses,
update_expense, summarize.

Shallow embedding used here:
  * the table is a `Store`: the list of rows in rowid order plus the
    AUTOINCREMENT counter (`DELETE FROM expenses` does not reset the counter,
    because the table is declared AUTOINCREMENT and the sequence lives in
    sqlite_sequence);
  * `amount REAL` is modelled as an exact rational (`Rat`); `date` and the
    text columns are `String`, compared with Lean's lexicographic string
    order, which on UTF-8 text agrees with SQLite's BINARY (memcmp)
    collation;
  * Python scalar arguments that the code feeds to `int(...)` are modelled by
    `Scalar` (an integer, a string, or None), and `int(...)` by `pyInt`;
  * each SQL statement is embedded by its effect on the row list, with
    `cursor.rowcount` embedded by the count SQLite reports.  For UPDATE,
    SQLite's changes() counts every row matched by the WHERE clause, whether
    or not the stored values differ from the assigned ones; the embedding
    reflects that.
-/
import Mathlib

/-- A Python scalar value as passed to the id parameters of the tools:
an integer, a string, or `None`. -/
inductive Scalar where
  | intV (n : Int)
  | strV (t : String)
  | noneV
deriving DecidableEq, Repr

/-- Value of a list of decimal digit characters, most significant first. -/
def digitsToNat (cs : List Char) : Nat :=
  cs.foldl (fun n c => 10 * n + (c.toNat - 48)) 0

/-- After a leading digit, Python's `int(str)` grammar allows digits with
single underscores between digits. -/
def digitTail : List Char → Bool
  | [] => true
  | '_' :: c :: rest => c.isDigit && digitTail rest
  | ['_'] => false
  | c :: rest => c.isDigit && digitTail rest

/-- A valid digit run for `int(str)`: nonempty, starts with a digit,
underscores only between digits. -/
def digitRun : List Char → Bool
  | [] => false
  | c :: rest => c.isDigit && digitTail rest

/-- Strip leading and trailing whitespace characters. -/
def stripSpaces (cs : List Char) : List Char :=
  ((cs.dropWhile Char.isWhitespace).reverse.dropWhile Char.isWhitespace).reverse

/-- Python's `int(s)` on a string: optional surrounding whitespace, optional
sign, then a digit run; `none` models a raised ValueError. -/
def pyIntOfString (t : String) : Option Int :=
  match stripSpaces t.data with
  | '+' :: rest =>
      if digitRun rest then some (Int.ofNat (digitsToNat (rest.filter (fun c => c ≠ '_')))) else none
  | '-' :: rest =>
      if digitRun rest then some (-(Int.ofNat (digitsToNat (rest.filter (fun c => c ≠ '_'))))) else none
  | cs =>
      if digitRun cs then some (Int.ofNat (digitsToNat (cs.filter (fun c => c ≠ '_')))) else none

/-- Python's `int(x)` on a `Scalar`; `none` models a raised
TypeError / ValueError. -/
def pyInt : Scalar → Option Int
  | Scalar.intV n => some n
  | Scalar.strV t => pyIntOfString t
  | Scalar.noneV => none

/-- One row of the `expenses` table. -/
structure Expense where
  id : Int
  date : String
  amount : Rat
  category : String
  subcategory : String
  note : String
deriving DecidableEq, Repr

/-- The database state: rows in rowid order plus the AUTOINCREMENT counter. -/
structure Store where
  rows : List Expense
  nextId : Int
deriving DecidableEq, Repr

/-- Well-formedness of a reachable database state: rowids are strictly
increasing down the table (in particular unique, `id` being the PRIMARY KEY)
and below the AUTOINCREMENT counter. -/
def Store.WF (s : Store) : Prop :=
  List.Pairwise (fun e₁ e₂ => e₁.id < e₂.id) s.rows ∧ ∀ e ∈ s.rows, e.id < s.nextId

instance (s : Store) : Decidable s.WF := by
  unfold Store.WF
  exact inferInstance

/-- Row order used by `ORDER BY id ASC`. -/
def idLe (e₁ e₂ : Expense) : Prop := e₁.id ≤ e₂.id

instance : DecidableRel idLe := fun e₁ e₂ => inferInstanceAs (Decidable (e₁.id ≤ e₂.id))

instance : IsTotal Expense idLe := ⟨fun e₁ e₂ => Int.le_total e₁.id e₂.id⟩

instance : IsTrans Expense idLe := ⟨fun _ _ _ h₁ h₂ => le_trans h₁ h₂⟩

/-- SQLite's BINARY collation on text, at the level of character lists:
lexicographic comparison by code point (which agrees with memcmp on the
UTF-8 encodings). -/
def charListLe : List Char → List Char → Bool
  | [], _ => true
  | _ :: _, [] => false
  | a :: as, b :: bs =>
      if a.toNat < b.toNat then true
      else if b.toNat < a.toNat then false
      else charListLe as bs

/-- SQLite's text `<=` under the default BINARY collation. -/
def strLe (a b : String) : Bool := charListLe a.data b.data

/-- `strLe` as a relation, for stating orderedness of query results. -/
def strLeP (a b : String) : Prop := strLe a b = true

instance : DecidableRel strLeP := fun a b => inferInstanceAs (Decidable (strLe a b = true))

/-- The predicate of `WHERE date BETWEEN ? AND ?` (inclusive, lexical text
comparison). -/
def betweenDates (start_date end_date : String) (e : Expense) : Bool :=
  strLe start_date e.date && strLe e.date end_date

/-- Result of `add_expense`: the dict `{status: ok, id}`. -/
inductive AddResult where
  | ok (id : Int)
deriving DecidableEq, Repr

/-- `add_expense(date, amount, category, subcategory, note)`: one INSERT; the
new row gets the AUTOINCREMENT id and `cur.lastrowid` is returned. -/
def add_expense (s : Store) (date : String) (amount : Rat) (category : String)
    (subcategory : String) (note : String) : AddResult × Store :=
  (AddResult.ok s.nextId,
   { rows := s.rows ++ [⟨s.nextId, date, amount, category, subcategory, note⟩],
     nextId := s.nextId + 1 })

/-- `add_expense` with `subcategory` and `note` omitted: Python fills the
declared defaults, both the empty string. -/
def add_expense_defaults (s : Store) (date : String) (amount : Rat) (category : String) :
    AddResult × Store :=
  add_expense s date amount category "" ""

/-- `list_expenses(start_date, end_date)`:
`SELECT ... WHERE date BETWEEN ? AND ? ORDER BY id ASC`. -/
def list_expenses (s : Store) (start_date end_date : String) : List Expense :=
  List.insertionSort idLe (s.rows.filter (betweenDates start_date end_date))

/-- Result of `delete_expense`: `{status: ok, deleted}`,
`{status: not_found, deleted: 0}`, or `{status: error, message}`. -/
inductive DeleteResult where
  | ok (deleted : Nat)
  | notFound (deleted : Nat)
  | err (message : String)
deriving DecidableEq, Repr

/-- `delete_expense(expense_id)`: coerce the id with `int(...)`, run
`DELETE FROM expenses WHERE id = ?`, branch on `cur.rowcount`. -/
def delete_expense (s : Store) (expense_id : Scalar) : DeleteResult × Store :=
  match pyInt expense_id with
  | none => (DeleteResult.err "expense_id must be an integer", s)
  | some eid =>
      let rowcount := (s.rows.filter (fun e => e.id == eid)).length
      let rows' := s.rows.filter (fun e => !(e.id == eid))
      if rowcount = 0 then (DeleteResult.notFound 0, { s with rows := rows' })
      else (DeleteResult.ok rowcount, { s with rows := rows' })

/-- The `expense_ids` argument of `delete_expenses`: absent (None), a
delimited string, a list, or a bare scalar. -/
inductive IdsArg where
  | noneA
  | strA (t : String)
  | listA (xs : List Scalar)
  | scalarA (x : Scalar)
deriving DecidableEq, Repr

/-- `expense_ids.replace(",", " ")`: every comma becomes a space. -/
def commaToSpace (cs : List Char) : List Char :=
  cs.map (fun c => if c = ',' then ' ' else c)

/-- Python's `str.split()` with no argument: split on runs of whitespace,
discarding empty tokens.  `acc` holds the characters of the token being
built, in reverse. -/
def wsSplit (acc : List Char) : List Char → List String
  | [] => if acc = [] then [] else [String.mk acc.reverse]
  | c :: rest =>
      if c.isWhitespace then
        if acc = [] then wsSplit [] rest
        else String.mk acc.reverse :: wsSplit [] rest
      else wsSplit (c :: acc) rest

/-- `expense_ids.replace(",", " ").split()` with empty tokens discarded
(the list comprehension's `if p` filter). -/
def splitTokens (t : String) : List String :=
  (wsSplit [] (commaToSpace t.data)).filter (fun p => p ≠ "")

/-- The `raw_ids` normalization of `delete_expenses`: a string is split into
tokens, a list is used as-is, a bare scalar is wrapped.  (`noneA` is handled
before this point in `delete_expenses`.) -/
def rawIds : IdsArg → List Scalar
  | IdsArg.noneA => []
  | IdsArg.strA t => (splitTokens t).map Scalar.strV
  | IdsArg.listA xs => xs
  | IdsArg.scalarA x => [x]

/-- Result of `delete_expenses`: `{status: ok, deleted}` from the delete_all
branch, `{status: ok|not_found, deleted, missing}` from the by-id branch, or
one of the three `{status: error, ...}` dicts. -/
inductive DeleteManyResult where
  | clearedAll (deleted : Nat)
  | deletedIds (status : String) (deleted : Nat) (missing : List Int)
  | errNoSelector
  | errNonInteger (invalid : List Scalar)
  | errNoValidIds
deriving DecidableEq, Repr

/-- The tail of `delete_expenses` once a nonempty coerced id list is in hand:
query the existing ids among the requested ones, delete the matching rows in
one statement, and report `missing = sorted(set(ids) - existing)`. -/
def deleteByIdList (s : Store) (ids : List Int) : DeleteManyResult × Store :=
  let deleted := (s.rows.filter (fun e => ids.contains e.id)).length
  let rows' := s.rows.filter (fun e => !(ids.contains e.id))
  let missing :=
    List.insertionSort (· ≤ ·)
      ((ids.filter (fun i => !(s.rows.any (fun e => e.id == i)))).dedup)
  let status := if deleted > 0 then "ok" else "not_found"
  (DeleteManyResult.deletedIds status deleted missing, { s with rows := rows' })

/-- `delete_expenses(expense_ids, delete_all)`: the delete_all branch runs
`DELETE FROM expenses`; otherwise the ids are normalized and coerced and the
validated list is handed to `deleteByIdList`. -/
def delete_expenses (s : Store) (expense_ids : IdsArg) (delete_all : Bool) :
    DeleteManyResult × Store :=
  if delete_all then
    (DeleteManyResult.clearedAll s.rows.length, { s with rows := [] })
  else
    match expense_ids with
    | IdsArg.noneA => (DeleteManyResult.errNoSelector, s)
    | arg =>
        let raw := rawIds arg
        let invalid := raw.filter (fun x => (pyInt x).isNone)
        let ids := raw.filterMap pyInt
        if invalid ≠ [] then (DeleteManyResult.errNonInteger invalid, s)
        else if ids = [] then (DeleteManyResult.errNoValidIds, s)
        else deleteByIdList s ids

/-- Result of `update_expense`: `{status: ok, updated}`,
`{status: no_change, updated: 0}`, `{status: not_found, updated: 0}`, or
`{status: error, message}`. -/
inductive UpdateResult where
  | ok (updated : Nat)
  | noChange
  | notFound
  | err (message : String)
deriving DecidableEq, Repr

/-- Effect of the assembled `UPDATE ... SET` clause on one row: every
supplied (non-None) field is overwritten, the rest keep their values. -/
def applyFields (date : Option String) (amount : Option Rat)
    (category subcategory note : Option String) (e : Expense) : Expense :=
  { e with
    date := date.getD e.date
    amount := amount.getD e.amount
    category := category.getD e.category
    subcategory := subcategory.getD e.subcategory
    note := note.getD e.note }

/-- `update_expense(expense_id, date, amount, category, subcategory, note)`:
coerce the id, reject an empty field set, run the assembled UPDATE, and
branch on `cur.rowcount`.  SQLite's changes() counts every row matched by
`WHERE id = ?`, also when the assigned values equal the stored ones, so
`rowcount` is the number of rows whose id matches. -/
def update_expense (s : Store) (expense_id : Scalar) (date : Option String)
    (amount : Option Rat) (category subcategory note : Option String) :
    UpdateResult × Store :=
  match pyInt expense_id with
  | none => (UpdateResult.err "expense_id must be an integer", s)
  | some eid =>
      if date.isNone && amount.isNone && category.isNone &&
          subcategory.isNone && note.isNone then
        (UpdateResult.err "provide at least one field to update", s)
      else
        let rowcount := (s.rows.filter (fun e => e.id == eid)).length
        let rows' := s.rows.map (fun e =>
          if e.id == eid then applyFields date amount category subcategory note e else e)
        if rowcount = 0 then
          if s.rows.any (fun e => e.id == eid) then (UpdateResult.noChange, s)
          else (UpdateResult.notFound, s)
        else (UpdateResult.ok rowcount, { s with rows := rows' })

/-- Python truthiness of the optional `category` argument of `summarize`:
`None` and the empty string are falsy, every other string is truthy. -/
def pyTruthy : Option String → Bool
  | none => false
  | some c => c ≠ ""

/-- `summarize(start_date, end_date, category)`:
`SELECT category, SUM(amount) ... WHERE date BETWEEN ? AND ?` with
`AND category = ?` appended only when `category` is truthy, then
`GROUP BY category ORDER BY category ASC`. -/
def summarize (s : Store) (start_date end_date : String) (category : Option String) :
    List (String × Rat) :=
  let inRange := s.rows.filter (betweenDates start_date end_date)
  let filtered :=
    if pyTruthy category then inRange.filter (fun e => e.category == category.getD "")
    else inRange
  let cats := List.insertionSort strLeP (filtered.map (fun e => e.category)).dedup
  cats.map (fun c => (c, ((filtered.filter (fun e => e.category == c)).map (fun e => e.amount)).sum))

/-- A concrete well-formed store used to exercise the theorems below. -/
def exRow : Expense := ⟨1, "2024-01-05", 10, "Food", "", ""⟩

def exRow2 : Expense := ⟨2, "2024-02-01", 5, "Bus", "", ""⟩

def exStore : Store := { rows := [exRow, exRow2], nextId := 3 }

/- ### Order lemmas for the embedded BINARY text comparison -/

theorem charListLe_total : ∀ as bs, charListLe as bs = true ∨ charListLe bs as = true
  | [], [] => Or.inl rfl
  | [], _ :: _ => Or.inl rfl
  | _ :: _, [] => Or.inr rfl
  | a :: as, b :: bs => by
      rcases Nat.lt_trichotomy a.toNat b.toNat with h | h | h
      · left
        simp [charListLe, h]
      · have h1 : ¬ a.toNat < b.toNat := by omega
        have h2 : ¬ b.toNat < a.toNat := by omega
        rcases charListLe_total as bs with ih | ih
        · left
          simp [charListLe, h1, h2, ih]
        · right
          simp [charListLe, h1, h2, ih]
      · right
        simp [charListLe, h]

theorem charListLe_trans : ∀ as bs cs, charListLe as bs = true → charListLe bs cs = true →
    charListLe as cs = true
  | [], _, _ => fun _ _ => rfl
  | _ :: _, [], _ => fun h1 _ => by simp [charListLe] at h1
  | _ :: _, _ :: _, [] => fun _ h2 => by simp [charListLe] at h2
  | a :: as, b :: bs, c :: cs => fun h1 h2 => by
      simp only [charListLe] at h1 h2 ⊢
      rcases Nat.lt_trichotomy a.toNat b.toNat with hab | hab | hab
      · rcases Nat.lt_trichotomy b.toNat c.toNat with hbc | hbc | hbc
        · rw [if_pos (by omega)]
        · rw [if_pos (by omega)]
        · rw [if_neg (by omega), if_pos (by omega)] at h2
          exact absurd h2 (by simp)
      · rw [if_neg (by omega), if_neg (by omega)] at h1
        rcases Nat.lt_trichotomy b.toNat c.toNat with hbc | hbc | hbc
        · rw [if_pos (by omega)]
        · rw [if_neg (by omega), if_neg (by omega)] at h2
          rw [if_neg (by omega), if_neg (by omega)]
          exact charListLe_trans as bs cs h1 h2
        · rw [if_neg (by omega), if_pos (by omega)] at h2
          exact absurd h2 (by simp)
      · rw [if_neg (by omega), if_pos (by omega)] at h1
        exact absurd h1 (by simp)

instance : IsTotal String strLeP :=
  ⟨fun a b => charListLe_total a.data b.data⟩

instance : IsTrans String strLeP :=
  ⟨fun a b c h1 h2 => charListLe_trans a.data b.data c.data h1 h2⟩

/- ### Helper lemmas about the embedding -/

/-- If every element of `raw` coerces (`raw.map pyInt = ids.map some`), then
the invalid-token filter is empty and the coerced list is `ids`. -/
theorem mapPyInt_some : ∀ {raw : List Scalar} {ids : List Int},
    raw.map pyInt = ids.map some →
    raw.filter (fun x => (pyInt x).isNone) = [] ∧ raw.filterMap pyInt = ids := by
  intro raw
  induction raw with
  | nil =>
      intro ids h
      cases ids with
      | nil => exact ⟨rfl, rfl⟩
      | cons i is => simp at h
  | cons x xs ih =>
      intro ids h
      cases ids with
      | nil => simp at h
      | cons i is =>
          simp only [List.map_cons, List.cons.injEq] at h
          obtain ⟨hx, hrest⟩ := h
          obtain ⟨h1, h2⟩ := ih hrest
          refine ⟨?_, ?_⟩
          · simp [List.filter_cons, hx, h1]
          · simp [List.filterMap_cons, hx, h2]

/-- On a list with strictly increasing ids, two members with the same id are
the same record. -/
theorem expense_id_inj {l : List Expense}
    (h : List.Pairwise (fun e₁ e₂ => e₁.id < e₂.id) l)
    {r e : Expense} (hr : r ∈ l) (he : e ∈ l) (hid : r.id = e.id) : r = e := by
  by_contra hne
  have hp : List.Pairwise (fun e₁ e₂ => e₁.id ≠ e₂.id) l :=
    h.imp (fun hlt => by omega)
  have hsymm : Symmetric (fun e₁ e₂ : Expense => e₁.id ≠ e₂.id) :=
    fun _ _ hab => Ne.symm hab
  exact (hp.forall hsymm hr he hne) hid

/-- On a list with strictly increasing ids, filtering for the id of a member
returns exactly that member. -/
theorem filter_id_eq_singleton : ∀ {l : List Expense},
    List.Pairwise (fun e₁ e₂ => e₁.id < e₂.id) l →
    ∀ {e : Expense}, e ∈ l → ∀ {n : Int}, e.id = n →
    l.filter (fun r => r.id == n) = [e] := by
  intro l
  induction l with
  | nil => intro _ e he; cases he
  | cons a l ih =>
      intro hp e he n hid
      obtain ⟨ha, hl⟩ := List.pairwise_cons.mp hp
      rcases List.mem_cons.mp he with rfl | he'
      · have hrest : l.filter (fun r => r.id == n) = [] := by
          refine List.filter_eq_nil_iff.mpr (fun b hb => ?_)
          have := ha b hb
          simp only [beq_iff_eq]
          omega
        simp [List.filter_cons, hid, hrest]
      · have hane : ¬ (a.id == n) = true := by
          have := ha e he'
          simp only [beq_iff_eq]
          omega
        simp only [List.filter_cons, if_neg hane]
        exact ih hl he' hid

/- ### Claim theorems -/

/-- C7: `delete_many` with `delete_all=true` deletes every record regardless
of the `expense_ids` argument and returns `{status: ok, deleted: <count of
records deleted>}` (the `clearedAll` result carries status ok, also when the
count is 0); a subsequent `list` over any date range returns an empty
sequence. -/
theorem delete_all_empties_store (s : Store) (arg : IdsArg) :
    delete_expenses s arg true =
      (DeleteManyResult.clearedAll s.rows.length, { s with rows := [] }) ∧
    ∀ a b : String, list_expenses (delete_expenses s arg true).2 a b = [] := by
  constructor
  · simp [delete_expenses]
  · intro a b
    simp [delete_expenses, list_expenses]

/-- C10: `summarize` with `category` equal to the empty string behaves exactly
like `summarize` with `category` absent: Python's truthiness test `if
category:` rejects `""`, so no category filter is applied. -/
theorem summarize_empty_string_filter (s : Store) (a b : String) :
    summarize s a b (some "") = summarize s a b none := by
  simp [summarize, pyTruthy]

/-- C5: `list` returns exactly the records whose date lies lexically within
`[start_date, end_date]`, inclusive on both ends, in ascending id order, and
the empty sequence (not an error) when no record matches. -/
theorem list_expenses_spec (s : Store) (a b : String) :
    (∀ e : Expense, e ∈ list_expenses s a b ↔
      e ∈ s.rows ∧ strLe a e.date = true ∧ strLe e.date b = true) ∧
    List.Sorted idLe (list_expenses s a b) ∧
    ((∀ e ∈ s.rows, ¬(strLe a e.date = true ∧ strLe e.date b = true)) →
      list_expenses s a b = []) := by
  refine ⟨?_, ?_, ?_⟩
  · intro e
    rw [list_expenses, List.mem_insertionSort, List.mem_filter, betweenDates]
    simp [Bool.and_eq_true]
  · exact List.sorted_insertionSort idLe _
  · intro h
    rw [list_expenses]
    have hnil : s.rows.filter (betweenDates a b) = [] := by
      refine List.filter_eq_nil_iff.mpr (fun e he => ?_)
      have := h e he
      simp only [betweenDates, Bool.and_eq_true]
      tauto
    rw [hnil]
    rfl

/-- Witness for C5 at a concrete store and range with no matching record. -/
theorem list_expenses_spec_witness :
    list_expenses exStore "2025-01-01" "2025-12-31" = [] :=
  (list_expenses_spec exStore "2025-01-01" "2025-12-31").2.2 (by decide)

/-- C8: for a coercible id, `delete` returns `{status: not_found, deleted: 0}`
and leaves the store unchanged when no record with that id exists, and
returns `{status: ok, deleted: 1}` after removing exactly that record when it
exists. -/
theorem delete_by_id_spec (s : Store) (hwf : s.WF) (x : Scalar) (n : Int)
    (hco : pyInt x = some n) :
    ((∀ e ∈ s.rows, e.id ≠ n) → delete_expense s x = (DeleteResult.notFound 0, s)) ∧
    (∀ e ∈ s.rows, e.id = n →
      delete_expense s x =
        (DeleteResult.ok 1, { s with rows := s.rows.filter (fun r => !(r.id == n)) }) ∧
      (∀ r : Expense, r ∈ (delete_expense s x).2.rows ↔ r ∈ s.rows ∧ r ≠ e)) := by
  constructor
  · intro h
    have hfil : s.rows.filter (fun e => e.id == n) = [] :=
      List.filter_eq_nil_iff.mpr (fun e he => by simpa using h e he)
    have hfil2 : s.rows.filter (fun e => !(e.id == n)) = s.rows := by
      refine List.filter_eq_self.mpr (fun e he => ?_)
      simpa using h e he
    simp [delete_expense, hco, hfil, hfil2]
  · intro e he hid
    have hone : s.rows.filter (fun r => r.id == n) = [e] :=
      filter_id_eq_singleton hwf.1 he hid
    have hres : delete_expense s x =
        (DeleteResult.ok 1, { s with rows := s.rows.filter (fun r => !(r.id == n)) }) := by
      simp [delete_expense, hco, hone]
    refine ⟨hres, fun r => ?_⟩
    rw [hres]
    simp only [List.mem_filter, Bool.not_eq_true', beq_eq_false_iff_ne]
    constructor
    · rintro ⟨hr, hb⟩
      refine ⟨hr, fun hre => ?_⟩
      subst hre
      exact hb hid
    · rintro ⟨hr, hne⟩
      refine ⟨hr, fun heq => ?_⟩
      exact hne (expense_id_inj hwf.1 hr he (heq.trans hid.symm))

/-- Witness for C8: deleting the absent id 99 reports not_found and leaves
the concrete store unchanged; deleting the present id 1 removes it. -/
theorem delete_by_id_spec_witness :
    delete_expense exStore (Scalar.strV "99") = (DeleteResult.notFound 0, exStore) ∧
    delete_expense exStore (Scalar.intV 1) =
      (DeleteResult.ok 1, { exStore with rows := exStore.rows.filter (fun r => !(r.id == 1)) }) := by
  constructor
  · exact (delete_by_id_spec exStore (by decide) (Scalar.strV "99") 99 (by decide)).1 (by decide)
  · exact ((delete_by_id_spec exStore (by decide) (Scalar.intV 1) 1 rfl).2 exRow
      (List.Mem.head _) rfl).1

/-- C4: every validation failure — a non-coercible expense_id in delete or
update, expense_ids absent with delete_all false, a token failing integer
coercion, an empty coerced id list, or an update with no field supplied —
returns a structured error result and leaves the store completely
unchanged. -/
theorem validation_failures_spec (s : Store) (x : Scalar) (arg : IdsArg)
    (d : Option String) (am : Option Rat) (c sc nt : Option String) :
    (pyInt x = none →
      delete_expense s x = (DeleteResult.err "expense_id must be an integer", s)) ∧
    (pyInt x = none →
      update_expense s x d am c sc nt =
        (UpdateResult.err "expense_id must be an integer", s)) ∧
    delete_expenses s IdsArg.noneA false = (DeleteManyResult.errNoSelector, s) ∧
    (arg ≠ IdsArg.noneA → (∃ it ∈ rawIds arg, pyInt it = none) →
      delete_expenses s arg false =
        (DeleteManyResult.errNonInteger
          ((rawIds arg).filter (fun y => (pyInt y).isNone)), s)) ∧
    (arg ≠ IdsArg.noneA → (rawIds arg).filter (fun y => (pyInt y).isNone) = [] →
      (rawIds arg).filterMap pyInt = [] →
      delete_expenses s arg false = (DeleteManyResult.errNoValidIds, s)) ∧
    (d = none → am = none → c = none → sc = none → nt = none →
      ∃ m, update_expense s x d am c sc nt = (UpdateResult.err m, s)) := by
  refine ⟨?_, ?_, ?_, ?_, ?_, ?_⟩
  · intro h
    simp [delete_expense, h]
  · intro h
    simp [update_expense, h]
  · simp [delete_expenses]
  · intro hne hex
    obtain ⟨it, hit, hnone⟩ := hex
    have hmem : it ∈ (rawIds arg).filter (fun y => (pyInt y).isNone) :=
      List.mem_filter.mpr ⟨hit, by simp [hnone]⟩
    have hfil : (rawIds arg).filter (fun y => (pyInt y).isNone) ≠ [] :=
      List.ne_nil_of_mem hmem
    cases arg with
    | noneA => exact absurd rfl hne
    | strA t => simp [delete_expenses, hfil]
    | listA xs => simp [delete_expenses, hfil]
    | scalarA y => simp [delete_expenses, hfil]
  · intro hne hfil hids
    cases arg with
    | noneA => exact absurd rfl hne
    | strA t => simp [delete_expenses, hfil, hids]
    | listA xs => simp [delete_expenses, hfil, hids]
    | scalarA y => simp [delete_expenses, hfil, hids]
  · rintro rfl rfl rfl rfl rfl
    cases hx : pyInt x with
    | none =>
        exact ⟨"expense_id must be an integer", by simp [update_expense, hx]⟩
    | some v =>
        exact ⟨"provide at least one field to update", by simp [update_expense, hx]⟩

/-- Witness for C4: each validation failure exercised on the concrete store:
a non-numeric id in delete and update, a missing selector, a bad token in a
bulk delete, an all-separator id string, and an update with no fields. -/
theorem validation_failures_witness :
    delete_expense exStore (Scalar.strV "abc") =
      (DeleteResult.err "expense_id must be an integer", exStore) ∧
    update_expense exStore Scalar.noneV none none none none none =
      (UpdateResult.err "expense_id must be an integer", exStore) ∧
    delete_expenses exStore IdsArg.noneA false = (DeleteManyResult.errNoSelector, exStore) ∧
    delete_expenses exStore (IdsArg.strA "7, x") false =
      (DeleteManyResult.errNonInteger [Scalar.strV "x"], exStore) ∧
    delete_expenses exStore (IdsArg.strA " , ") false =
      (DeleteManyResult.errNoValidIds, exStore) ∧
    (∃ m, update_expense exStore (Scalar.intV 1) none none none none none =
      (UpdateResult.err m, exStore)) := by
  have h1 := validation_failures_spec exStore (Scalar.strV "abc") (IdsArg.strA "7, x")
    none none none none none
  have h2 := validation_failures_spec exStore Scalar.noneV (IdsArg.strA " , ")
    none none none none none
  have h3 := validation_failures_spec exStore (Scalar.intV 1) IdsArg.noneA
    none none none none none
  exact ⟨h1.1 (by decide), h2.2.1 rfl, h1.2.2.1,
    h1.2.2.2.1 (by decide) ⟨Scalar.strV "x", by decide, by decide⟩,
    h2.2.2.2.2.1 (by decide) (by decide) (by decide),
    h3.2.2.2.2.2 rfl rfl rfl rfl rfl⟩

/-- C3: `delete_many` given a delimited string of ids behaves exactly like
`delete_many` given the corresponding list of integers: the string is split
on commas and whitespace, empty tokens discarded, and each token coerced. -/
theorem delete_many_string_eq_list (s : Store) (t : String) (ns : List Int)
    (hco : (splitTokens t).map pyIntOfString = ns.map some) :
    delete_expenses s (IdsArg.strA t) false =
      delete_expenses s (IdsArg.listA (ns.map Scalar.intV)) false := by
  have h1 : (rawIds (IdsArg.strA t)).map pyInt = ns.map some := by
    rw [rawIds, List.map_map]
    exact hco
  have h2 : (rawIds (IdsArg.listA (ns.map Scalar.intV))).map pyInt = ns.map some := by
    rw [rawIds, List.map_map]
    exact List.map_congr_left (fun n _ => rfl)
  obtain ⟨hi1, hm1⟩ := mapPyInt_some h1
  obtain ⟨hi2, hm2⟩ := mapPyInt_some h2
  simp [delete_expenses, hi1, hi2, hm1, hm2]

/-- Witness for C3: the spec's own example, `"1, 2 3"` versus `[1, 2, 3]`. -/
theorem delete_many_string_eq_list_witness :
    delete_expenses exStore (IdsArg.strA "1, 2 3") false =
      delete_expenses exStore
        (IdsArg.listA [Scalar.intV 1, Scalar.intV 2, Scalar.intV 3]) false :=
  delete_many_string_eq_list exStore "1, 2 3" [1, 2, 3] (by decide)

/-- C2: when every token coerces, `delete_all` is false and at least one
requested id exists, `delete_many` deletes exactly the requested records that
exist (duplicate requests tolerated) and returns status ok, the count of
deleted records, and the sorted duplicate-free list of requested ids that did
not exist; and on any by-id result, the status is not_found exactly when the
deleted count is zero. -/
theorem delete_many_requested_spec (s : Store) (arg : IdsArg) (ns : List Int)
    (hne : arg ≠ IdsArg.noneA)
    (hco : (rawIds arg).map pyInt = ns.map some) :
    ((∃ e ∈ s.rows, e.id ∈ ns) →
      ∃ deleted missing s₂,
        delete_expenses s arg false =
          (DeleteManyResult.deletedIds "ok" deleted missing, s₂) ∧
        deleted = (s.rows.filter (fun e => decide (e.id ∈ ns))).length ∧
        0 < deleted ∧
        (∀ r : Expense, r ∈ s₂.rows ↔ r ∈ s.rows ∧ r.id ∉ ns) ∧
        s₂.nextId = s.nextId ∧
        List.Pairwise (fun i j : Int => i < j) missing ∧
        (∀ i : Int, i ∈ missing ↔ i ∈ ns ∧ ∀ e ∈ s.rows, e.id ≠ i)) ∧
    (∀ st deleted missing s₂,
      delete_expenses s arg false = (DeleteManyResult.deletedIds st deleted missing, s₂) →
      (st = "not_found" ↔ deleted = 0)) := by
  obtain ⟨hinv, hids⟩ := mapPyInt_some hco
  have hred : ns ≠ [] → delete_expenses s arg false = deleteByIdList s ns := by
    intro hns
    cases arg with
    | noneA => exact absurd rfl hne
    | strA t => simp [delete_expenses, hinv, hids, hns]
    | listA xs => simp [delete_expenses, hinv, hids, hns]
    | scalarA y => simp [delete_expenses, hinv, hids, hns]
  have hfeq : s.rows.filter (fun e => ns.contains e.id) =
      s.rows.filter (fun e => decide (e.id ∈ ns)) :=
    List.filter_congr (fun e _ => by simp)
  constructor
  · intro hex
    have hns : ns ≠ [] := by
      rintro rfl
      obtain ⟨e, _, h⟩ := hex
      cases h
    have hdelpos : 0 < (s.rows.filter (fun e => ns.contains e.id)).length := by
      obtain ⟨e, he, hin⟩ := hex
      have : e ∈ s.rows.filter (fun e => ns.contains e.id) :=
        List.mem_filter.mpr ⟨he, List.elem_iff.mpr hin⟩
      exact List.length_pos.mpr (List.ne_nil_of_mem this)
    refine ⟨(s.rows.filter (fun e => ns.contains e.id)).length,
      List.insertionSort (· ≤ ·)
        ((ns.filter (fun i => !(s.rows.any (fun e => e.id == i)))).dedup),
      { s with rows := s.rows.filter (fun e => !(ns.contains e.id)) },
      ?_, ?_, ?_, ?_, rfl, ?_, ?_⟩
    · rw [hred hns]
      simp only [deleteByIdList]
      rw [if_pos hdelpos]
    · exact congrArg List.length hfeq
    · exact hdelpos
    · intro r
      simp only [List.mem_filter, Bool.not_eq_true']
      constructor
      · rintro ⟨hr, hb⟩
        refine ⟨hr, fun hmem => ?_⟩
        simp at hb
        exact hb hmem
      · rintro ⟨hr, hnm⟩
        refine ⟨hr, ?_⟩
        cases hb : ns.contains r.id with
        | false => rfl
        | true => exact absurd (List.elem_iff.mp hb) hnm
    · have hsorted : List.Sorted (fun i j : Int => i ≤ j)
          (List.insertionSort (· ≤ ·)
            ((ns.filter (fun i => !(s.rows.any (fun e => e.id == i)))).dedup)) :=
        List.sorted_insertionSort _ _
      have hnd : (List.insertionSort (· ≤ ·)
          ((ns.filter (fun i => !(s.rows.any (fun e => e.id == i)))).dedup)).Nodup :=
        (List.perm_insertionSort _ _).nodup_iff.mpr (List.nodup_dedup _)
      exact (hsorted.and hnd).imp (fun h => lt_of_le_of_ne h.1 h.2)
    · intro i
      rw [List.mem_insertionSort, List.mem_dedup, List.mem_filter]
      simp only [Bool.not_eq_true']
      constructor
      · rintro ⟨hi, hany⟩
        refine ⟨hi, fun e he hid => ?_⟩
        have : s.rows.any (fun e => e.id == i) = true :=
          List.any_eq_true.mpr ⟨e, he, by simp [hid]⟩
        rw [this] at hany
        cases hany
      · rintro ⟨hi, hall⟩
        refine ⟨hi, ?_⟩
        cases hany : s.rows.any (fun e => e.id == i) with
        | false => rfl
        | true =>
            obtain ⟨e, he, hb⟩ := List.any_eq_true.mp hany
            exact absurd (by simpa using hb) (hall e he)
  · intro st deleted missing s₂ heq
    by_cases hns : ns = []
    · subst hns
      cases arg with
      | noneA => exact absurd rfl hne
      | strA t => simp [delete_expenses, hinv, hids] at heq
      | listA xs => simp [delete_expenses, hinv, hids] at heq
      | scalarA y => simp [delete_expenses, hinv, hids] at heq
    · rw [hred hns] at heq
      unfold deleteByIdList at heq
      simp only [Prod.mk.injEq, DeleteManyResult.deletedIds.injEq] at heq
      obtain ⟨⟨hst, hdel, _⟩, _⟩ := heq
      subst hdel
      by_cases hd : 0 < (s.rows.filter (fun e => ns.contains e.id)).length
      · rw [if_pos hd] at hst
        subst hst
        constructor
        · intro h
          exact absurd h (by decide)
        · intro h
          omega
      · rw [if_neg hd] at hst
        subst hst
        simp only [Nat.not_lt, Nat.le_zero] at hd
        exact iff_of_true rfl hd

/-- Witness for C2: the spec's example, deleting `[1, 99]` when only id 1
exists. -/
theorem delete_many_requested_witness :
    ∃ deleted missing s₂,
      delete_expenses exStore (IdsArg.listA [Scalar.intV 1, Scalar.intV 99]) false =
        (DeleteManyResult.deletedIds "ok" deleted missing, s₂) ∧
      deleted = (exStore.rows.filter (fun e => decide (e.id ∈ ([1, 99] : List Int)))).length ∧
      0 < deleted ∧
      (∀ r : Expense, r ∈ s₂.rows ↔ r ∈ exStore.rows ∧ r.id ∉ ([1, 99] : List Int)) ∧
      s₂.nextId = exStore.nextId ∧
      List.Pairwise (fun i j : Int => i < j) missing ∧
      (∀ i : Int, i ∈ missing ↔ i ∈ ([1, 99] : List Int) ∧ ∀ e ∈ exStore.rows, e.id ≠ i) :=
  (delete_many_requested_spec exStore (IdsArg.listA [Scalar.intV 1, Scalar.intV 99]) [1, 99]
    (by decide) (by decide)).1 ⟨exRow, List.Mem.head _, by decide⟩

/-- C9: `add` returns `{status: ok, id: <new id>}` with a fresh id distinct
from every existing record's id, and a subsequent `list` over a range
containing the date returns a record with exactly the supplied field values
(the omitted `subcategory` and `note` default to the empty string). -/
theorem add_roundtrip (s : Store) (hwf : s.WF) (d : String) (amt : Rat) (c sc nt : String)
    (a b : String) (ha : strLe a d = true) (hb : strLe d b = true) :
    (add_expense s d amt c sc nt).1 = AddResult.ok s.nextId ∧
    (∀ e ∈ s.rows, e.id ≠ s.nextId) ∧
    (⟨s.nextId, d, amt, c, sc, nt⟩ : Expense) ∈
      list_expenses (add_expense s d amt c sc nt).2 a b ∧
    add_expense_defaults s d amt c = add_expense s d amt c "" "" := by
  refine ⟨rfl, ?_, ?_, rfl⟩
  · intro e he
    have := hwf.2 e he
    omega
  · rw [list_expenses, List.mem_insertionSort, List.mem_filter]
    constructor
    · exact List.mem_append.mpr (Or.inr (List.Mem.head _))
    · simp [betweenDates, ha, hb]

/-- Witness for C9 on the concrete store: adding a record dated 2024-03-01
and listing the whole of 2024. -/
theorem add_roundtrip_witness :
    (add_expense exStore "2024-03-01" 7 "Gas" "" "").1 = AddResult.ok exStore.nextId ∧
    (∀ e ∈ exStore.rows, e.id ≠ exStore.nextId) ∧
    (⟨exStore.nextId, "2024-03-01", 7, "Gas", "", ""⟩ : Expense) ∈
      list_expenses (add_expense exStore "2024-03-01" 7 "Gas" "" "").2
        "2024-01-01" "2024-12-31" ∧
    add_expense_defaults exStore "2024-03-01" 7 "Gas" =
      add_expense exStore "2024-03-01" 7 "Gas" "" "" :=
  add_roundtrip exStore (by decide) "2024-03-01" 7 "Gas" "" "" "2024-01-01" "2024-12-31"
    (by decide) (by decide)

/-- Counterexample to C1 as stated: on the concrete well-formed store whose
record 1 has date "2024-01-05", an update of record 1 supplying that same
date returns `{status: ok, updated: 1}` — not `{status: no_change,
updated: 0}`.  The UPDATE statement matches the row, and SQLite counts a
matched row as changed even when the assigned values equal the stored ones,
so `cur.rowcount` is 1 and the secondary existence check is never reached. -/
theorem update_no_change_counterexample :
    exStore.WF ∧
    exRow ∈ exStore.rows ∧ exRow.id = 1 ∧ exRow.date = "2024-01-05" ∧
    (update_expense exStore (Scalar.intV 1) (some "2024-01-05") none none none none).1 =
      UpdateResult.ok 1 ∧
    (update_expense exStore (Scalar.intV 1) (some "2024-01-05") none none none none).1 ≠
      UpdateResult.noChange :=
  ⟨by decide, List.Mem.head _, rfl, rfl, by decide, by decide⟩

/-- C1 amended: on a well-formed store, `update` on an existing id with every
supplied (non-null) field value identical to the record's current value
returns `{status: ok, updated: 1}` and leaves the store unchanged (the
statement counts the matched row as updated even though nothing changed);
`{status: not_found, updated: 0}` is returned exactly when no record with
that id exists. -/
theorem update_spec (s : Store) (hwf : s.WF) (eid : Int)
    (d : Option String) (am : Option Rat) (c sc nt : Option String)
    (hfield : d.isSome ∨ am.isSome ∨ c.isSome ∨ sc.isSome ∨ nt.isSome) :
    (∀ e ∈ s.rows, e.id = eid →
      d.getD e.date = e.date → am.getD e.amount = e.amount →
      c.getD e.category = e.category → sc.getD e.subcategory = e.subcategory →
      nt.getD e.note = e.note →
      update_expense s (Scalar.intV eid) d am c sc nt = (UpdateResult.ok 1, s)) ∧
    ((∀ e ∈ s.rows, e.id ≠ eid) →
      update_expense s (Scalar.intV eid) d am c sc nt = (UpdateResult.notFound, s)) := by
  have hguard : (d.isNone && am.isNone && c.isNone && sc.isNone && nt.isNone) = false := by
    rcases hfield with h | h | h | h | h <;>
      · obtain ⟨v, rfl⟩ := Option.isSome_iff_exists.mp h
        simp
  constructor
  · intro e he hid h1 h2 h3 h4 h5
    have happ : applyFields d am c sc nt e = e := by
      simp [applyFields, h1, h2, h3, h4, h5]
    have hone : s.rows.filter (fun r => r.id == eid) = [e] :=
      filter_id_eq_singleton hwf.1 he hid
    have hmap : s.rows.map
        (fun r => if r.id = eid then applyFields d am c sc nt r else r) = s.rows := by
      refine (List.map_congr_left (fun r hr => ?_)).trans (List.map_id _)
      by_cases hb : r.id = eid
      · have hre : r = e := expense_id_inj hwf.1 hr he (hb.trans hid.symm)
        subst hre
        rw [if_pos hb]
        exact happ
      · rw [if_neg hb]
        rfl
    simp [update_expense, pyInt, hguard, hone, hmap]
  · intro h
    have hfil : s.rows.filter (fun r => r.id == eid) = [] :=
      List.filter_eq_nil_iff.mpr (fun e he => by simpa using h e he)
    have hany : s.rows.any (fun r => r.id == eid) = false := by
      rw [List.any_eq_false]
      intro e he
      simpa using h e he
    simp [update_expense, pyInt, hguard, hfil, hany]

/-- Witness for the amended C1: an identical-value update of the present
record 1 reports ok/1 and leaves the concrete store unchanged; an update of
the absent id 99 reports not_found. -/
theorem update_spec_witness :
    update_expense exStore (Scalar.intV 1) (some "2024-01-05") none none none none =
      (UpdateResult.ok 1, exStore) ∧
    update_expense exStore (Scalar.intV 99) (some "x") none none none none =
      (UpdateResult.notFound, exStore) :=
  ⟨(update_spec exStore (by decide) 1 (some "2024-01-05") none none none none
      (Or.inl rfl)).1 exRow (List.Mem.head _) rfl rfl rfl rfl rfl rfl,
   (update_spec exStore (by decide) 99 (some "x") none none none none
      (Or.inl rfl)).2 (by decide)⟩

/-- Sorting a duplicate-free list of category names yields a strictly
ascending list. -/
theorem sortedDedup_pairwise (l : List String) :
    List.Pairwise (fun c₁ c₂ => strLeP c₁ c₂ ∧ c₁ ≠ c₂)
      (List.insertionSort strLeP l.dedup) :=
  (List.sorted_insertionSort strLeP _).and
    ((List.perm_insertionSort strLeP _).nodup_iff.mpr (List.nodup_dedup _))

/-- C6: `summarize` returns one `{category, total_amount}` entry per category
with at least one record in the inclusive date range (matching the category
filter exactly when a non-empty one is given), the total being the sum of
`amount` over exactly those records; entries are strictly ascending by
category and categories with no matching record are absent. -/
theorem summarize_spec (s : Store) (a b : String) (cat : Option String)
    (hcat : cat = none ∨ ∃ c0, cat = some c0 ∧ c0 ≠ "") :
    List.Pairwise (fun c₁ c₂ : String => strLeP c₁ c₂ ∧ c₁ ≠ c₂)
      ((summarize s a b cat).map Prod.fst) ∧
    (∀ c t, (c, t) ∈ summarize s a b cat →
      t = ((s.rows.filter (fun e => betweenDates a b e && e.category == c)).map
            (fun e => e.amount)).sum) ∧
    (∀ c : String, (∃ t, (c, t) ∈ summarize s a b cat) ↔
      ((∃ e ∈ s.rows, betweenDates a b e = true ∧ e.category = c) ∧
       ∀ c0, cat = some c0 → c = c0)) := by
  rcases hcat with rfl | ⟨c0, rfl, hc0⟩
  · have hsum : summarize s a b none =
        (List.insertionSort strLeP
            (((s.rows.filter (betweenDates a b)).map (fun e => e.category)).dedup)).map
          (fun c => (c, (((s.rows.filter (betweenDates a b)).filter
              (fun e => e.category == c)).map (fun e => e.amount)).sum)) := rfl
    refine ⟨?_, ?_, ?_⟩
    · have hfst : (summarize s a b none).map Prod.fst =
          List.insertionSort strLeP
            (((s.rows.filter (betweenDates a b)).map (fun e => e.category)).dedup) := by
        rw [hsum, List.map_map]
        exact (List.map_congr_left (fun c _ => rfl)).trans (List.map_id _)
      rw [hfst]
      exact sortedDedup_pairwise _
    · intro c t hmem
      rw [hsum] at hmem
      obtain ⟨c', hc', heq⟩ := List.mem_map.mp hmem
      injection heq with hc1 ht
      subst hc1
      subst ht
      have hflt : (s.rows.filter (betweenDates a b)).filter (fun e => e.category == c') =
          s.rows.filter (fun e => betweenDates a b e && e.category == c') := by
        rw [List.filter_filter]
        exact List.filter_congr (fun e _ => Bool.and_comm _ _)
      rw [hflt]
    · intro c
      constructor
      · rintro ⟨t, hmem⟩
        rw [hsum] at hmem
        obtain ⟨c', hc', heq⟩ := List.mem_map.mp hmem
        have hcc : c' = c := congrArg Prod.fst heq
        subst hcc
        rw [List.mem_insertionSort, List.mem_dedup] at hc'
        obtain ⟨e, he, hec⟩ := List.mem_map.mp hc'
        rw [List.mem_filter] at he
        exact ⟨⟨e, he.1, he.2, hec⟩, fun c1 h => nomatch h⟩
      · rintro ⟨⟨e, he, hbe, hec⟩, -⟩
        refine ⟨(((s.rows.filter (betweenDates a b)).filter
            (fun e => e.category == c)).map (fun e => e.amount)).sum, ?_⟩
        rw [hsum]
        refine List.mem_map.mpr ⟨c, ?_, rfl⟩
        rw [List.mem_insertionSort, List.mem_dedup]
        exact List.mem_map.mpr ⟨e, List.mem_filter.mpr ⟨he, hbe⟩, hec⟩
  · have htr : pyTruthy (some c0) = true := by simp [pyTruthy, hc0]
    have hsum : summarize s a b (some c0) =
        (List.insertionSort strLeP
            ((((s.rows.filter (betweenDates a b)).filter
                (fun e => e.category == c0)).map (fun e => e.category)).dedup)).map
          (fun c => (c, ((((s.rows.filter (betweenDates a b)).filter
                (fun e => e.category == c0)).filter (fun e => e.category == c)).map
              (fun e => e.amount)).sum)) := by
      rw [summarize]
      simp only [htr, if_true, Option.getD_some]
    have hcatF : ∀ c', c' ∈ (((s.rows.filter (betweenDates a b)).filter
        (fun e => e.category == c0)).map (fun e => e.category)) → c' = c0 := by
      intro c' hc'
      obtain ⟨e, he, hec⟩ := List.mem_map.mp hc'
      rw [List.mem_filter] at he
      rw [← hec]
      exact beq_iff_eq.mp he.2
    refine ⟨?_, ?_, ?_⟩
    · have hfst : (summarize s a b (some c0)).map Prod.fst =
          List.insertionSort strLeP
            ((((s.rows.filter (betweenDates a b)).filter
                (fun e => e.category == c0)).map (fun e => e.category)).dedup) := by
        rw [hsum, List.map_map]
        exact (List.map_congr_left (fun c _ => rfl)).trans (List.map_id _)
      rw [hfst]
      exact sortedDedup_pairwise _
    · intro c t hmem
      rw [hsum] at hmem
      obtain ⟨c', hc', heq⟩ := List.mem_map.mp hmem
      injection heq with hc1 ht
      subst hc1
      subst ht
      have hcc : c' = c0 := by
        rw [List.mem_insertionSort, List.mem_dedup] at hc'
        exact hcatF c' hc'
      rw [hcc]
      have hflt : ((s.rows.filter (betweenDates a b)).filter
            (fun e => e.category == c0)).filter (fun e => e.category == c0) =
          s.rows.filter (fun e => betweenDates a b e && e.category == c0) := by
        rw [List.filter_filter, List.filter_filter]
        refine List.filter_congr (fun e _ => ?_)
        cases hbc : e.category == c0 <;> simp [hbc]
      rw [hflt]
    · intro c
      constructor
      · rintro ⟨t, hmem⟩
        rw [hsum] at hmem
        obtain ⟨c', hc', heq⟩ := List.mem_map.mp hmem
        have hcc : c' = c := congrArg Prod.fst heq
        subst hcc
        rw [List.mem_insertionSort, List.mem_dedup] at hc'
        have hcc0 : c' = c0 := hcatF c' hc'
        obtain ⟨e, he, hec⟩ := List.mem_map.mp hc'
        rw [List.mem_filter, List.mem_filter] at he
        exact ⟨⟨e, he.1.1, he.1.2, hec⟩, fun c1 h => by cases h; exact hcc0⟩
      · rintro ⟨⟨e, he, hbe, hec⟩, hmatch⟩
        have hcc0 : c = c0 := hmatch c0 rfl
        refine ⟨((((s.rows.filter (betweenDates a b)).filter
              (fun e => e.category == c0)).filter (fun e => e.category == c)).map
            (fun e => e.amount)).sum, ?_⟩
        rw [hsum]
        refine List.mem_map.mpr ⟨c, ?_, rfl⟩
        rw [List.mem_insertionSort, List.mem_dedup]
        refine List.mem_map.mpr ⟨e, ?_, hec⟩
        refine List.mem_filter.mpr ⟨List.mem_filter.mpr ⟨he, hbe⟩, ?_⟩
        rw [beq_iff_eq, hec, hcc0]

/-- Witness for C6: the category "Food" of the concrete store has an entry
over 2024 exactly because a matching record exists. -/
theorem summarize_spec_witness :
    (∃ t, ("Food", t) ∈ summarize exStore "2024-01-01" "2024-12-31" none) ↔
      ((∃ e ∈ exStore.rows, betweenDates "2024-01-01" "2024-12-31" e = true ∧
          e.category = "Food") ∧
       ∀ c0, (none : Option String) = some c0 → "Food" = c0) :=
  (summarize_spec exStore "2024-01-01" "2024-12-31" none (Or.inl rfl)).2.2 "Food"
